import Mathlib

/-!
Verification of the PowerBI table-reconstruction pass
(`extract_table_data_from_powerbi_html` in `src/main.py`).

The function strips a fixed blacklist of presentation attributes from every
tag of the parsed document, collects the elements whose `role` attribute is
`columnheader`, `rowheader` or `gridcell` (in document order), and runs a
single left-to-right state machine over them, producing a list of tables
(each a list of rows, each row a list of cell strings).

The shallow embedding below mirrors the Python line by line:
  * `Role` / `GridItem` model one element of the flattened stream
    (`columnIndex` is the optional `column-index` attribute, a string);
  * `stepItem` is the body of the `for pres_item in pres` loop; the Python
    expression `pres_item.attrs['column-index']` raises `KeyError` when the
    attribute is absent, which the embedding models as `Except.error ()` —
    note that Python's `and` short-circuits, so the lookup only happens when
    `len(current_row) > 1`;
  * `runItems` is the loop, `extract_table_data` adds the finalization code
    after the loop (lines 163-169);
  * `stripTag` / `stripAttributes` model the attribute-stripping
    preprocessing (lines 86-93) over an abstracted element sequence, and
    `toGridItems` models `find_all(role=[...])` plus the attribute reads.
-/

/-- Role attribute values admitted by `soup.find_all(role=[...])`; these three
strings are mutually non-substrings, so the three sequential
`'...' in pres_item.attrs['role']` tests in the Python select exactly one
branch per item. -/
inductive Role where
  | columnheader
  | rowheader
  | gridcell
deriving DecidableEq, Repr

/-- One element of the flattened grid stream: its role, its
whitespace-stripped text, and its optional `column-index` attribute value
(attribute values are strings in the DOM; the code compares against `'0'`). -/
structure GridItem where
  role : Role
  text : String
  columnIndex : Option String
deriving DecidableEq, Repr

abbrev Row := List String
abbrev Table := List Row
abbrev Dataset := List Table

/-- The four accumulators local to one reconstruction pass:
`column_headers`, `current_row`, `current_table`, `datasets`
(lines 95-98 of `src/main.py`). -/
structure ExtractState where
  column_headers : List String
  current_row : Row
  current_table : Table
  datasets : Dataset
deriving DecidableEq, Repr

/-- All four accumulators start empty. -/
def initState : ExtractState := ⟨[], [], [], []⟩

/-- Body of the `for pres_item in pres` loop (lines 100-161).
`Except.error ()` models the `KeyError` raised by
`pres_item.attrs['column-index']` when a `gridcell` item has no
`column-index` attribute and `len(current_row) > 1` (the `and`
short-circuits, so with at most one pending cell the lookup never runs). -/
def stepItem (s : ExtractState) (item : GridItem) : Except Unit ExtractState :=
  match item.role with
  | .columnheader =>
      let s :=
        if s.current_row ≠ [] then
          { s with current_table := s.current_table ++ [s.current_row],
                   current_row := [] }
        else s
      let s :=
        if s.column_headers = [] ∧ s.current_table ≠ [] then
          { s with datasets := s.datasets ++ [s.current_table],
                   current_table := [] }
        else s
      .ok { s with column_headers := s.column_headers ++ [item.text] }
  | .rowheader =>
      let s :=
        if s.current_row ≠ [] then
          { s with current_table := s.current_table ++ [s.current_row],
                   current_row := [] }
        else s
      let s :=
        if s.column_headers ≠ [] then
          { s with current_table := s.current_table ++ [s.column_headers],
                   column_headers := [] }
        else s
      .ok { s with current_row := s.current_row ++ [item.text] }
  | .gridcell =>
      let s :=
        if s.column_headers ≠ [] then
          { s with current_table := s.current_table ++ [s.column_headers],
                   column_headers := [] }
        else s
      if s.current_row.length > 1 then
        match item.columnIndex with
        | none => .error ()
        | some idx =>
            let s :=
              if idx = "0" then
                { s with current_table := s.current_table ++ [s.current_row],
                         current_row := [] }
              else s
            .ok { s with current_row := s.current_row ++ [item.text] }
      else
        .ok { s with current_row := s.current_row ++ [item.text] }

/-- The loop over the matched elements; an exception raised by the body
aborts the whole pass. -/
def runItems : ExtractState → List GridItem → Except Unit ExtractState
  | s, [] => .ok s
  | s, item :: rest =>
      match stepItem s item with
      | .error e => .error e
      | .ok s' => runItems s' rest

/-- Finalization after the loop (lines 163-169): both the append of the last
row and the append of the last table sit inside `if current_row != []`. -/
def finalize (s : ExtractState) : Dataset :=
  if s.current_row ≠ [] then
    s.datasets ++ [s.current_table ++ [s.current_row]]
  else
    s.datasets

/-- The whole reconstruction pass: run the loop from the empty state, then
finalize. -/
def extract_table_data (items : List GridItem) : Except Unit Dataset :=
  match runItems initState items with
  | .error e => .error e
  | .ok s => .ok (finalize s)

/-! Preprocessing (lines 86-93): every tag's attribute dictionary is
filtered against a fixed blacklist. We model a tag as its attribute
association list plus its extracted text. -/

/-- The blacklist of line 86 of `src/main.py`. -/
def REMOVE_ATTRIBUTES : List String :=
  ["style", "class", "aria", "tabindex", "aria-colindex"]

/-- An element of the parsed document, abstracted to what the pass reads:
its attribute association list and its stripped text content. -/
structure Elem where
  attrs : List (String × String)
  text : String
deriving DecidableEq, Repr

/-- The dictionary comprehension of lines 92-93: keep exactly the attributes
whose key is not blacklisted. -/
def stripTag (e : Elem) : Elem :=
  { e with attrs := e.attrs.filter (fun kv => kv.1 ∉ REMOVE_ATTRIBUTES) }

/-- Stripping applied to every element of the document, in document order. -/
def stripAttributes (es : List Elem) : List Elem := es.map stripTag

/-- The role recognized by `find_all(role=["columnheader","rowheader","gridcell"])`:
`none` when the element's `role` attribute is absent or any other value. -/
def elemRole (e : Elem) : Option Role :=
  match e.attrs.lookup "role" with
  | some "columnheader" => some Role.columnheader
  | some "rowheader" => some Role.rowheader
  | some "gridcell" => some Role.gridcell
  | _ => none

/-- The grid-item stream obtained from an element sequence: keep the
elements with a recognized role, reading text and the `column-index`
attribute. -/
def toGridItems (es : List Elem) : List GridItem :=
  es.filterMap (fun e =>
    (elemRole e).map (fun r => ⟨r, e.text, e.attrs.lookup "column-index"⟩))

/-! Concrete streams used by the scenario claims. -/

/-- Scenario A input: two column headers, then one data row. -/
def scenarioA : List GridItem :=
  [⟨Role.columnheader, "Name", none⟩,
   ⟨Role.columnheader, "Count", none⟩,
   ⟨Role.gridcell, "Flu", some "0"⟩,
   ⟨Role.gridcell, "12", some "1"⟩]

/-- Scenario B input: two tables back to back, each a header group followed
by one data row. -/
def scenarioB : List GridItem :=
  [⟨Role.columnheader, "A", none⟩,
   ⟨Role.columnheader, "B", none⟩,
   ⟨Role.gridcell, "a1", some "0"⟩,
   ⟨Role.gridcell, "a2", some "1"⟩,
   ⟨Role.columnheader, "C", none⟩,
   ⟨Role.columnheader, "D", none⟩,
   ⟨Role.gridcell, "b1", some "0"⟩,
   ⟨Role.gridcell, "b2", some "1"⟩]

/-! Derived notions used to state the claims. -/

/-- The value of `current_table` right after the row-flush step that opens
the `columnheader` branch (lines 103-109): the pending row is appended when
non-empty. -/
def flushRowTable (s : ExtractState) : Table :=
  if s.current_row ≠ [] then s.current_table ++ [s.current_row]
  else s.current_table

/-- At most one of the two pending accumulators is non-empty. -/
def MutEx (s : ExtractState) : Prop :=
  s.column_headers = [] ∨ s.current_row = []

/-- Well-formed input: every `gridcell` item carries a `column-index`
attribute. -/
def WellFormed (items : List GridItem) : Prop :=
  ∀ i ∈ items, i.role = Role.gridcell → i.columnIndex.isSome

/-- All cell text held anywhere in the accumulators, in the order in which
it entered them (completed tables, then the current table, then the pending
header group, then the pending row; the last two are never simultaneously
non-empty). -/
def flatState (s : ExtractState) : List String :=
  s.datasets.flatten.flatten ++ s.current_table.flatten ++
    s.column_headers ++ s.current_row

/-- Every row recorded so far is non-empty, and every completed table is
non-empty with non-empty rows. -/
def TablesOK (s : ExtractState) : Prop :=
  (∀ r ∈ s.current_table, r ≠ []) ∧
  (∀ t ∈ s.datasets, t ≠ [] ∧ ∀ r ∈ t, r ≠ [])

/-! Ghost-instrumented copy of the state machine, used to express
provenance claims ("the row began with this item"): every cell string is
tagged with the index of the input item it was read from. Erasing the tags
recovers the machine above (proved below), so statements about the
instrumented run transfer to `extract_table_data`. -/

/-- A cell string tagged with the index of the input item it came from. -/
structure TCell where
  src : Nat
  txt : String
deriving DecidableEq, Repr

/-- Instrumented accumulators: `pos` counts the items consumed so far, and
the four buffers hold tagged cells. -/
structure IState where
  pos : Nat
  column_headers : List TCell
  current_row : List TCell
  current_table : List (List TCell)
  datasets : List (List (List TCell))
deriving DecidableEq, Repr

/-- Instrumented initial state. -/
def iInit : IState := ⟨0, [], [], [], []⟩

/-- Instrumented loop body: identical to `stepItem` except that the
appended cell is tagged with the position of the item being consumed. -/
def istep (s : IState) (item : GridItem) : Except Unit IState :=
  match item.role with
  | .columnheader =>
      let s :=
        if s.current_row ≠ [] then
          { s with current_table := s.current_table ++ [s.current_row],
                   current_row := [] }
        else s
      let s :=
        if s.column_headers = [] ∧ s.current_table ≠ [] then
          { s with datasets := s.datasets ++ [s.current_table],
                   current_table := [] }
        else s
      .ok { s with column_headers := s.column_headers ++ [⟨s.pos, item.text⟩],
                   pos := s.pos + 1 }
  | .rowheader =>
      let s :=
        if s.current_row ≠ [] then
          { s with current_table := s.current_table ++ [s.current_row],
                   current_row := [] }
        else s
      let s :=
        if s.column_headers ≠ [] then
          { s with current_table := s.current_table ++ [s.column_headers],
                   column_headers := [] }
        else s
      .ok { s with current_row := s.current_row ++ [⟨s.pos, item.text⟩],
                   pos := s.pos + 1 }
  | .gridcell =>
      let s :=
        if s.column_headers ≠ [] then
          { s with current_table := s.current_table ++ [s.column_headers],
                   column_headers := [] }
        else s
      if s.current_row.length > 1 then
        match item.columnIndex with
        | none => .error ()
        | some idx =>
            let s :=
              if idx = "0" then
                { s with current_table := s.current_table ++ [s.current_row],
                         current_row := [] }
              else s
            .ok { s with current_row := s.current_row ++ [⟨s.pos, item.text⟩],
                         pos := s.pos + 1 }
      else
        .ok { s with current_row := s.current_row ++ [⟨s.pos, item.text⟩],
                     pos := s.pos + 1 }

/-- Instrumented loop. -/
def irun : IState → List GridItem → Except Unit IState
  | s, [] => .ok s
  | s, item :: rest =>
      match istep s item with
      | .error e => .error e
      | .ok s' => irun s' rest

/-- Instrumented finalization. -/
def ifinalize (s : IState) : List (List (List TCell)) :=
  if s.current_row ≠ [] then
    s.datasets ++ [s.current_table ++ [s.current_row]]
  else
    s.datasets

/-- Instrumented reconstruction pass. -/
def iextract (items : List GridItem) : Except Unit (List (List (List TCell))) :=
  match irun iInit items with
  | .error e => .error e
  | .ok s => .ok (ifinalize s)

/-- Drop the provenance tags of a row. -/
def eraseRow (r : List TCell) : Row := r.map TCell.txt

/-- Drop the provenance tags of a table. -/
def eraseTable (t : List (List TCell)) : Table := t.map eraseRow

/-- Drop the provenance tags of a dataset. -/
def eraseDS (d : List (List (List TCell))) : Dataset := d.map eraseTable

/-- Drop the provenance tags of an instrumented state. -/
def eraseState (s : IState) : ExtractState :=
  ⟨eraseRow s.column_headers, eraseRow s.current_row,
   eraseTable s.current_table, eraseDS s.datasets⟩

/-- All tagged cells held anywhere in an instrumented state. -/
def cellsOf (s : IState) : List TCell :=
  s.datasets.flatten.flatten ++ s.current_table.flatten ++
    s.column_headers ++ s.current_row

/-- Every tagged cell in the state carries the text of the input item whose
index it is tagged with. -/
def TagOK (items : List GridItem) (s : IState) : Prop :=
  ∀ c ∈ cellsOf s, ∃ i, items[c.src]? = some i ∧ c.txt = i.text

/-- Mutual exclusion of the two pending buffers, instrumented version. -/
def IMutEx (s : IState) : Prop :=
  s.column_headers = [] ∨ s.current_row = []

/-- C8: Scenario A yields exactly one table, header row first. -/
theorem scenarioA_output :
    extract_table_data scenarioA =
      .ok [[["Name", "Count"], ["Flu", "12"]]] := by
  rfl

/-- C9: the attribute-stripping preprocessing is idempotent: stripping an
element sequence twice yields the same element sequence, hence the same
grid-item sequence, as stripping once. -/
theorem strip_attributes_idempotent (es : List Elem) :
    stripAttributes (stripAttributes es) = stripAttributes es ∧
    toGridItems (stripAttributes (stripAttributes es)) =
      toGridItems (stripAttributes es) := by
  have h : stripAttributes (stripAttributes es) = stripAttributes es := by
    simp only [stripAttributes, List.map_map]
    apply List.map_congr_left
    intro e _
    simp [stripTag, List.filter_filter]
  exact ⟨h, by rw [h]⟩

/-- C3: finalization appends the pending row and then the current table
exactly when the pending row is non-empty at end of stream; with an empty
pending row no final table is appended, so a stream ending right after a
header-only group (its pending row empty) contributes no table at all. -/
theorem finalization_rule :
    (∀ (items : List GridItem) (s : ExtractState),
        runItems initState items = .ok s →
        extract_table_data items = .ok (finalize s) ∧
        (s.current_row ≠ [] →
          finalize s = s.datasets ++ [s.current_table ++ [s.current_row]]) ∧
        (s.current_row = [] → finalize s = s.datasets)) ∧
    extract_table_data
      [⟨Role.columnheader, "A", none⟩, ⟨Role.columnheader, "B", none⟩] =
        .ok [] := by
  refine ⟨?_, rfl⟩
  intro items s h
  refine ⟨?_, ?_, ?_⟩
  · simp [extract_table_data, h]
  · intro hr; simp [finalize, hr]
  · intro hr; simp [finalize, hr]

/-- Witness for `finalization_rule` at a concrete one-cell stream. -/
theorem finalization_rule_witness :
    extract_table_data [⟨Role.gridcell, "x", some "0"⟩] =
      .ok (finalize ⟨[], ["x"], [], []⟩) ∧
    finalize ⟨[], ["x"], [], []⟩ = [[["x"]]] := by
  have h := finalization_rule.1 [⟨Role.gridcell, "x", some "0"⟩]
    ⟨[], ["x"], [], []⟩ rfl
  refine ⟨h.1, ?_⟩
  have h2 := h.2.1 (by decide)
  simpa using h2

/-- C1 counterexample: a stream whose third `gridcell` lacks a
`column-index` reaches the attribute lookup with two cells already pending,
and the pass raises (models the Python `KeyError`). -/
theorem missing_index_raises :
    extract_table_data
      [⟨Role.gridcell, "a", some "0"⟩, ⟨Role.gridcell, "b", some "1"⟩,
       ⟨Role.gridcell, "c", none⟩] = .error () := by
  rfl

/-- C1 amended: a `gridcell` with no `column-index` is appended to the
pending row as usual (missing index cannot trigger a row start) as long as
the pending row holds at most one cell; with more than one pending cell the
attribute lookup runs and the pass raises. A lone index-free cell therefore
still yields a one-cell table. -/
theorem missing_index_step :
    (∀ (s : ExtractState) (c : String),
        stepItem s ⟨Role.gridcell, c, none⟩ =
          if s.current_row.length > 1 then .error ()
          else
            .ok { column_headers := []
                  current_row := s.current_row ++ [c]
                  current_table :=
                    if s.column_headers ≠ [] then
                      s.current_table ++ [s.column_headers]
                    else s.current_table
                  datasets := s.datasets }) ∧
    extract_table_data [⟨Role.gridcell, "c", none⟩] = .ok [[["c"]]] := by
  refine ⟨?_, rfl⟩
  intro s c
  by_cases hch : s.column_headers = [] <;>
    by_cases hlen : s.current_row.length > 1 <;>
      simp [stepItem, hch, hlen]

/-- C4: on a `columnheader` item the pending row is flushed first, and a
table boundary (current table recorded into the output, then reset) fires
exactly when no header group was accumulating and the flushed table is
non-empty; the header text is then appended to the pending headers.
Consequently two back-to-back header-plus-row groups yield two output
tables, each led by its own header row. -/
theorem column_header_boundary :
    (∀ (s : ExtractState) (h : String),
        ∃ s', stepItem s ⟨Role.columnheader, h, none⟩ = .ok s' ∧
          s'.column_headers = s.column_headers ++ [h] ∧
          s'.current_row = [] ∧
          s'.datasets =
            (if s.column_headers = [] ∧ flushRowTable s ≠ [] then
               s.datasets ++ [flushRowTable s]
             else s.datasets) ∧
          s'.current_table =
            (if s.column_headers = [] ∧ flushRowTable s ≠ [] then []
             else flushRowTable s)) ∧
    extract_table_data scenarioB =
      .ok [[["A", "B"], ["a1", "a2"]], [["C", "D"], ["b1", "b2"]]] := by
  refine ⟨?_, rfl⟩
  intro s h
  by_cases h1 : s.current_row = []
  · have hf : flushRowTable s = s.current_table := by
      simp [flushRowTable, h1]
    by_cases h2 : s.column_headers = [] ∧ s.current_table ≠ []
    · refine ⟨⟨s.column_headers ++ [h], [], [], s.datasets ++ [s.current_table]⟩,
        ?_, rfl, rfl, ?_, ?_⟩
      · simp [stepItem, h1, h2.1, h2.2]
      · rw [hf, if_pos h2]
      · rw [hf, if_pos h2]
    · refine ⟨⟨s.column_headers ++ [h], [], s.current_table, s.datasets⟩,
        ?_, rfl, rfl, ?_, ?_⟩
      · simp only [stepItem, h1]
        simp [if_neg h2, h1]
      · rw [hf, if_neg h2]
      · rw [hf, if_neg h2]
  · have hf : flushRowTable s = s.current_table ++ [s.current_row] := by
      simp [flushRowTable, h1]
    by_cases h2 : s.column_headers = []
    · have hcond : s.column_headers = [] ∧ flushRowTable s ≠ [] := by
        refine ⟨h2, ?_⟩
        rw [hf]
        simp
      refine ⟨⟨s.column_headers ++ [h], [], [],
          s.datasets ++ [s.current_table ++ [s.current_row]]⟩,
        ?_, rfl, rfl, ?_, ?_⟩
      · simp [stepItem, h1, h2]
      · rw [if_pos hcond, hf]
      · rw [if_pos hcond]
    · have hcond : ¬(s.column_headers = [] ∧ flushRowTable s ≠ []) := by
        intro hc
        exact h2 hc.1
      refine ⟨⟨s.column_headers ++ [h], [],
          s.current_table ++ [s.current_row], s.datasets⟩,
        ?_, rfl, rfl, ?_, ?_⟩
      · simp [stepItem, h1, h2]
      · rw [if_neg hcond]
      · rw [if_neg hcond, hf]

/-- After processing any single item, at most one of the two pending
accumulators is non-empty: the `columnheader` branch ends with an empty
pending row, and the other two branches end with empty pending headers. -/
theorem stepItem_mutEx (s : ExtractState) (i : GridItem) (s' : ExtractState)
    (h : stepItem s i = .ok s') : MutEx s' := by
  rcases i with ⟨role, text, ci⟩
  cases role <;> simp only [stepItem] at h
  all_goals repeat split at h
  all_goals try (injection h with h)
  all_goals try subst h
  all_goals repeat split at h
  all_goals try (injection h with h)
  all_goals try subst h
  all_goals simp only [MutEx]
  all_goals try (split_ifs <;> simp_all)
  all_goals simp_all

/-- The mutual-exclusion property is preserved along the whole loop. -/
theorem runItems_mutEx : ∀ (items : List GridItem) (s s' : ExtractState),
    MutEx s → runItems s items = .ok s' → MutEx s' := by
  intro items
  induction items with
  | nil =>
      intro s s' hm h
      simp only [runItems] at h
      injection h with h
      exact h ▸ hm
  | cons i rest ih =>
      intro s s' hm h
      simp only [runItems] at h
      split at h
      · simp_all
      · next s1 heq => exact ih s1 s' (stepItem_mutEx s i s1 heq) h

/-- C2 counterexample: contrary to the claimed invariant, there is no input
sequence and no point between two items at which the pending headers and
the pending row are both non-empty — every branch ends with at least one of
them empty, and both start empty. -/
theorem no_both_pending :
    ¬ ∃ (items : List GridItem) (k : Nat) (s : ExtractState),
        runItems initState (items.take k) = .ok s ∧
        s.column_headers ≠ [] ∧ s.current_row ≠ [] := by
  rintro ⟨items, k, s, hrun, hh, hr⟩
  rcases runItems_mutEx (items.take k) initState s (Or.inl rfl) hrun with h | h
  · exact hh h
  · exact hr h

/-- C2 amended: while processing a single item at most one of the pending
accumulators grows, and between any two items (after any prefix of the
input) at most one of them is non-empty — they are never simultaneously
non-empty. -/
theorem pending_accumulators :
    (∀ (s : ExtractState) (i : GridItem) (s' : ExtractState),
        stepItem s i = .ok s' →
        ¬(s.column_headers.length < s'.column_headers.length ∧
          s.current_row.length < s'.current_row.length)) ∧
    (∀ (items : List GridItem) (k : Nat) (s : ExtractState),
        runItems initState (items.take k) = .ok s →
        s.column_headers = [] ∨ s.current_row = []) := by
  constructor
  · intro s i s' h hc
    rcases i with ⟨role, text, ci⟩
    cases role <;> simp only [stepItem] at h
    all_goals repeat split at h
    all_goals try (injection h with h)
    all_goals try subst h
    all_goals repeat split at h
    all_goals try (injection h with h)
    all_goals try subst h
    all_goals try (split_ifs at hc)
    all_goals simp_all
  · intro items k s hrun
    exact runItems_mutEx (items.take k) initState s (Or.inl rfl) hrun

/-- Witness for `pending_accumulators` at a concrete step and prefix. -/
theorem pending_accumulators_witness :
    ¬((initState.column_headers.length <
        (⟨["A"], [], [], []⟩ : ExtractState).column_headers.length) ∧
      (initState.current_row.length <
        (⟨["A"], [], [], []⟩ : ExtractState).current_row.length)) ∧
    ((⟨["A"], [], [], []⟩ : ExtractState).column_headers = [] ∨
      (⟨["A"], [], [], []⟩ : ExtractState).current_row = []) :=
  ⟨pending_accumulators.1 initState ⟨Role.columnheader, "A", none⟩
      ⟨["A"], [], [], []⟩ rfl,
   pending_accumulators.2 [⟨Role.columnheader, "A", none⟩] 1
      ⟨["A"], [], [], []⟩ rfl⟩

/-- A single item whose role is `gridcell` only with a `column-index`
present can always be processed: the only raising site is the attribute
lookup on an index-free `gridcell`. -/
theorem stepItem_total (s : ExtractState) (i : GridItem)
    (h : i.role = Role.gridcell → i.columnIndex.isSome) :
    ∃ s', stepItem s i = .ok s' := by
  cases hE : stepItem s i with
  | ok s' => exact ⟨s', rfl⟩
  | error e =>
      exfalso
      rcases i with ⟨role, text, ci⟩
      cases role <;> simp only [stepItem] at hE
      all_goals repeat split at hE
      all_goals repeat split at hE
      all_goals simp_all

/-- The whole loop succeeds on any well-formed suffix, from any state. -/
theorem runItems_total : ∀ (items : List GridItem) (s : ExtractState),
    (∀ i ∈ items, i.role = Role.gridcell → i.columnIndex.isSome) →
    ∃ s', runItems s items = .ok s' := by
  intro items
  induction items with
  | nil => exact fun s _ => ⟨s, rfl⟩
  | cons i rest ih =>
      intro s hwf
      obtain ⟨s1, hs1⟩ := stepItem_total s i (hwf i (by simp))
      obtain ⟨s2, hs2⟩ := ih s1 (fun j hj => hwf j (by simp [hj]))
      refine ⟨s2, ?_⟩
      simp only [runItems]
      rw [hs1]
      exact hs2

/-- C6: the reconstruction is total on well-formed inputs (every `gridcell`
item carries a `column-index`), and the empty stream yields the empty
dataset. -/
theorem reconstruct_total :
    (∀ items : List GridItem, WellFormed items →
        ∃ ds, extract_table_data items = .ok ds) ∧
    extract_table_data [] = .ok [] := by
  refine ⟨?_, rfl⟩
  intro items hwf
  obtain ⟨s, hs⟩ := runItems_total items initState hwf
  refine ⟨finalize s, ?_⟩
  simp only [extract_table_data]
  rw [hs]

/-- Witness for `reconstruct_total` on the Scenario A stream. -/
theorem reconstruct_total_witness :
    ∃ ds, extract_table_data scenarioA = .ok ds :=
  reconstruct_total.1 scenarioA (by unfold WellFormed; decide)

/-- Appending one non-empty row preserves row non-emptiness of a table. -/
theorem forall_append_row {ct : Table} {r : Row}
    (h1 : ∀ x ∈ ct, x ≠ []) (h2 : r ≠ []) : ∀ x ∈ ct ++ [r], x ≠ [] := by
  intro x hx
  rcases List.mem_append.1 hx with hx | hx
  · exact h1 x hx
  · rw [List.mem_singleton.1 hx]
    exact h2

/-- Appending one good table preserves goodness of the dataset. -/
theorem forall_append_table {ds : Dataset} {t : Table}
    (h1 : ∀ u ∈ ds, u ≠ [] ∧ ∀ r ∈ u, r ≠ []) (h2 : t ≠ [])
    (h3 : ∀ r ∈ t, r ≠ []) : ∀ u ∈ ds ++ [t], u ≠ [] ∧ ∀ r ∈ u, r ≠ [] := by
  intro u hu
  rcases List.mem_append.1 hu with hu | hu
  · exact h1 u hu
  · rw [List.mem_singleton.1 hu]
    exact ⟨h2, h3⟩

/-- Every flush site appends a buffer only under a non-emptiness guard, so
one step preserves the row/table non-emptiness invariant. -/
theorem stepItem_tablesOK (s : ExtractState) (i : GridItem) (s' : ExtractState)
    (hT : TablesOK s) (h : stepItem s i = .ok s') : TablesOK s' := by
  obtain ⟨hct, hds⟩ := hT
  rcases i with ⟨role, text, ci⟩
  cases role
  case columnheader =>
    by_cases h1 : s.current_row = []
    · by_cases h2 : s.column_headers = [] ∧ s.current_table ≠ []
      · have hstep : stepItem s ⟨Role.columnheader, text, ci⟩ =
            .ok ⟨s.column_headers ++ [text], s.current_row, [],
                 s.datasets ++ [s.current_table]⟩ := by
          simp [stepItem, h1, h2.1, h2.2]
        rw [hstep] at h
        injection h with h
        subst h
        exact ⟨by simp, forall_append_table hds h2.2 hct⟩
      · have hstep : stepItem s ⟨Role.columnheader, text, ci⟩ =
            .ok ⟨s.column_headers ++ [text], s.current_row,
                 s.current_table, s.datasets⟩ := by
          simp only [stepItem, h1]
          simp [if_neg h2, h1]
        rw [hstep] at h
        injection h with h
        subst h
        exact ⟨hct, hds⟩
    · have hrows : ∀ x ∈ s.current_table ++ [s.current_row], x ≠ [] :=
        forall_append_row hct h1
      by_cases h2 : s.column_headers = []
      · have hstep : stepItem s ⟨Role.columnheader, text, ci⟩ =
            .ok ⟨s.column_headers ++ [text], [], [],
                 s.datasets ++ [s.current_table ++ [s.current_row]]⟩ := by
          simp [stepItem, h1, h2]
        rw [hstep] at h
        injection h with h
        subst h
        exact ⟨by simp, forall_append_table hds (by simp) hrows⟩
      · have hstep : stepItem s ⟨Role.columnheader, text, ci⟩ =
            .ok ⟨s.column_headers ++ [text], [],
                 s.current_table ++ [s.current_row], s.datasets⟩ := by
          simp [stepItem, h1, h2]
        rw [hstep] at h
        injection h with h
        subst h
        exact ⟨hrows, hds⟩
  case rowheader =>
    by_cases h1 : s.current_row = [] <;> by_cases h2 : s.column_headers = []
    · have hstep : stepItem s ⟨Role.rowheader, text, ci⟩ =
          .ok ⟨[], s.current_row ++ [text], s.current_table, s.datasets⟩ := by
        simp [stepItem, h1, h2]
      rw [hstep] at h
      injection h with h
      subst h
      exact ⟨hct, hds⟩
    · have hstep : stepItem s ⟨Role.rowheader, text, ci⟩ =
          .ok ⟨[], [text], s.current_table ++ [s.column_headers],
               s.datasets⟩ := by
        simp [stepItem, h1, h2]
      rw [hstep] at h
      injection h with h
      subst h
      exact ⟨forall_append_row hct h2, hds⟩
    · have hstep : stepItem s ⟨Role.rowheader, text, ci⟩ =
          .ok ⟨[], [text], s.current_table ++ [s.current_row],
               s.datasets⟩ := by
        simp [stepItem, h1, h2]
      rw [hstep] at h
      injection h with h
      subst h
      exact ⟨forall_append_row hct h1, hds⟩
    · have hstep : stepItem s ⟨Role.rowheader, text, ci⟩ =
          .ok ⟨[], [text],
               s.current_table ++ [s.current_row] ++ [s.column_headers],
               s.datasets⟩ := by
        simp [stepItem, h1, h2]
      rw [hstep] at h
      injection h with h
      subst h
      exact ⟨forall_append_row (forall_append_row hct h1) h2, hds⟩
  case gridcell =>
    have hct1 : ∀ x ∈ (if s.column_headers ≠ [] then
        s.current_table ++ [s.column_headers] else s.current_table), x ≠ [] := by
      split_ifs with h2
      · exact forall_append_row hct h2
      · exact hct
    by_cases hlen : s.current_row.length > 1
    · rcases ci with _ | idx
      · exfalso
        by_cases h2 : s.column_headers = [] <;> simp [stepItem, h2, hlen] at h
      · by_cases hidx : idx = "0"
        · have hrow : s.current_row ≠ [] := by
            intro hnil
            rw [hnil] at hlen
            simp at hlen
          by_cases h2 : s.column_headers = []
          · have hstep : stepItem s ⟨Role.gridcell, text, some idx⟩ =
                .ok ⟨s.column_headers, [text],
                     s.current_table ++ [s.current_row], s.datasets⟩ := by
              simp [stepItem, h2, hlen, hidx]
            rw [hstep] at h
            injection h with h
            subst h
            refine ⟨?_, hds⟩
            have := hct1
            rw [if_neg (by simp [h2])] at this
            exact forall_append_row this hrow
          · have hstep : stepItem s ⟨Role.gridcell, text, some idx⟩ =
                .ok ⟨[], [text],
                     s.current_table ++ [s.column_headers] ++ [s.current_row],
                     s.datasets⟩ := by
              simp [stepItem, h2, hlen, hidx]
            rw [hstep] at h
            injection h with h
            subst h
            exact ⟨forall_append_row (forall_append_row hct h2) hrow, hds⟩
        · by_cases h2 : s.column_headers = []
          · have hstep : stepItem s ⟨Role.gridcell, text, some idx⟩ =
                .ok ⟨s.column_headers, s.current_row ++ [text],
                     s.current_table, s.datasets⟩ := by
              simp [stepItem, h2, hlen, hidx]
            rw [hstep] at h
            injection h with h
            subst h
            exact ⟨hct, hds⟩
          · have hstep : stepItem s ⟨Role.gridcell, text, some idx⟩ =
                .ok ⟨[], s.current_row ++ [text],
                     s.current_table ++ [s.column_headers], s.datasets⟩ := by
              simp [stepItem, h2, hlen, hidx]
            rw [hstep] at h
            injection h with h
            subst h
            exact ⟨forall_append_row hct h2, hds⟩
    · by_cases h2 : s.column_headers = []
      · have hstep : stepItem s ⟨Role.gridcell, text, ci⟩ =
            .ok ⟨s.column_headers, s.current_row ++ [text],
                 s.current_table, s.datasets⟩ := by
          simp [stepItem, h2, hlen]
        rw [hstep] at h
        injection h with h
        subst h
        exact ⟨hct, hds⟩
      · have hstep : stepItem s ⟨Role.gridcell, text, ci⟩ =
            .ok ⟨[], s.current_row ++ [text],
                 s.current_table ++ [s.column_headers], s.datasets⟩ := by
          simp [stepItem, h2, hlen]
        rw [hstep] at h
        injection h with h
        subst h
        exact ⟨forall_append_row hct h2, hds⟩

/-- The non-emptiness invariant holds along the whole loop. -/
theorem runItems_tablesOK : ∀ (items : List GridItem) (s s' : ExtractState),
    TablesOK s → runItems s items = .ok s' → TablesOK s' := by
  intro items
  induction items with
  | nil =>
      intro s s' hT h
      simp only [runItems] at h
      injection h with h
      exact h ▸ hT
  | cons i rest ih =>
      intro s s' hT h
      simp only [runItems] at h
      split at h
      · simp_all
      · next s1 heq => exact ih s1 s' (stepItem_tablesOK s i s1 hT heq) h

/-- C10: every table of the returned dataset is non-empty, and every row of
every returned table is non-empty. -/
theorem output_tables_nonempty :
    ∀ (items : List GridItem) (ds : Dataset),
      extract_table_data items = .ok ds →
      ∀ t ∈ ds, t ≠ [] ∧ ∀ r ∈ t, r ≠ [] := by
  intro items ds h
  cases hrun : runItems initState items with
  | error e => simp [extract_table_data, hrun] at h
  | ok s =>
      have hfin : finalize s = ds := by
        simp [extract_table_data, hrun] at h
        exact h
      obtain ⟨hct, hds⟩ :=
        runItems_tablesOK items initState s ⟨by simp [initState], by simp [initState]⟩ hrun
      subst hfin
      unfold finalize
      by_cases hr : s.current_row = []
      · rw [if_neg (by simp [hr])]
        exact hds
      · rw [if_pos hr]
        exact forall_append_table hds (by simp) (forall_append_row hct hr)

/-- Witness for `output_tables_nonempty` on the Scenario A output. -/
theorem output_tables_nonempty_witness :
    ((["Name", "Count"] : Row) ≠ []) ∧ ((["Flu", "12"] : Row) ≠ []) :=
  ⟨((output_tables_nonempty scenarioA [[["Name", "Count"], ["Flu", "12"]]] rfl
      [["Name", "Count"], ["Flu", "12"]] (by simp)).2 ["Name", "Count"] (by simp)),
   ((output_tables_nonempty scenarioA [[["Name", "Count"], ["Flu", "12"]]] rfl
      [["Name", "Count"], ["Flu", "12"]] (by simp)).2 ["Flu", "12"] (by simp))⟩

/-- One successful step appends exactly the consumed item's text to the
flattened cell content of the state (given the mutual-exclusion invariant,
which rules out a pending header group and a pending row coexisting). -/
theorem stepItem_flat (s : ExtractState) (i : GridItem) (s' : ExtractState)
    (hm : MutEx s) (h : stepItem s i = .ok s') :
    flatState s' = flatState s ++ [i.text] := by
  rcases hm with hm | hm
  all_goals rcases i with ⟨role, text, ci⟩
  all_goals cases role <;> simp only [stepItem] at h
  all_goals repeat split at h
  all_goals try (injection h with h)
  all_goals try subst h
  all_goals repeat split at h
  all_goals try (injection h with h)
  all_goals try subst h
  all_goals try simp_all [flatState]
  all_goals split_ifs <;> simp_all [flatState]

/-- Along a whole successful run, the flattened cell content of the final
state is the initial content followed by all consumed texts in order. -/
theorem runItems_flat : ∀ (items : List GridItem) (s s' : ExtractState),
    MutEx s → runItems s items = .ok s' →
    flatState s' = flatState s ++ items.map GridItem.text := by
  intro items
  induction items with
  | nil =>
      intro s s' hm h
      simp only [runItems] at h
      injection h with h
      subst h
      simp
  | cons i rest ih =>
      intro s s' hm h
      simp only [runItems] at h
      split at h
      · simp_all
      · next s1 heq =>
          rw [ih s1 s' (stepItem_mutEx s i s1 heq) h, stepItem_flat s i s1 hm heq]
          simp

/-- C5: the concatenation of all cells of all rows of all output tables, in
output order, is a subsequence of the input texts in their original order:
nothing is duplicated, reordered, or invented. -/
theorem order_preservation :
    ∀ (items : List GridItem) (ds : Dataset),
      extract_table_data items = .ok ds →
      ds.flatten.flatten.Sublist (items.map GridItem.text) := by
  intro items ds h
  cases hrun : runItems initState items with
  | error e => simp [extract_table_data, hrun] at h
  | ok s =>
      have hfin : finalize s = ds := by
        simp [extract_table_data, hrun] at h
        exact h
      have hflat : flatState s = items.map GridItem.text := by
        have h0 := runItems_flat items initState s (Or.inl rfl) hrun
        simpa [flatState, initState] using h0
      have hm := runItems_mutEx items initState s (Or.inl rfl) hrun
      subst hfin
      rw [← hflat]
      unfold finalize flatState
      by_cases hr : s.current_row = []
      · rw [if_neg (by simp [hr])]
        rw [hr]
        simp only [List.append_nil, List.append_assoc]
        exact List.sublist_append_left _ _
      · have hH : s.column_headers = [] := by
          rcases hm with hH | hR
          · exact hH
          · exact absurd hR hr
        rw [if_pos hr, hH]
        simp [List.flatten_append, List.append_assoc]

/-- Witness for `order_preservation` on the Scenario A stream. -/
theorem order_preservation_witness :
    ([[["Name", "Count"], ["Flu", "12"]]] :
        Dataset).flatten.flatten.Sublist (scenarioA.map GridItem.text) :=
  order_preservation scenarioA [[["Name", "Count"], ["Flu", "12"]]] rfl

/-- Erasing the provenance tags commutes with one step: the instrumented
machine is the plain machine on erased states. -/
theorem istep_erase (s : IState) (i : GridItem) :
    (istep s i).map eraseState = stepItem (eraseState s) i := by
  rcases i with ⟨role, text, ci⟩
  cases role
  case columnheader =>
    by_cases h1 : s.current_row = [] <;>
      by_cases h2 : s.column_headers = [] <;>
        by_cases h3 : s.current_table = [] <;>
          simp [istep, stepItem, eraseState, eraseRow, eraseTable, eraseDS,
                Except.map, h1, h2, h3]
  case rowheader =>
    by_cases h1 : s.current_row = [] <;>
      by_cases h2 : s.column_headers = [] <;>
        simp [istep, stepItem, eraseState, eraseRow, eraseTable, eraseDS,
              Except.map, h1, h2]
  case gridcell =>
    rcases ci with _ | idx
    · by_cases h2 : s.column_headers = [] <;>
        by_cases hlen : s.current_row.length > 1 <;>
          simp [istep, stepItem, eraseState, eraseRow, eraseTable, eraseDS,
                Except.map, h2, hlen]
    · by_cases h2 : s.column_headers = [] <;>
        by_cases hlen : s.current_row.length > 1 <;>
          by_cases hidx : idx = "0" <;>
            simp [istep, stepItem, eraseState, eraseRow, eraseTable, eraseDS,
                  Except.map, h2, hlen, hidx]

/-- Erasure commutes with the whole loop. -/
theorem irun_erase : ∀ (items : List GridItem) (s : IState),
    (irun s items).map eraseState = runItems (eraseState s) items := by
  intro items
  induction items with
  | nil => intro s; simp [irun, runItems, Except.map]
  | cons i rest ih =>
      intro s
      have hsim := istep_erase s i
      cases histep : istep s i with
      | error e =>
          rw [histep] at hsim
          simp only [irun, runItems, histep]
          rw [← hsim]
          simp [Except.map]
      | ok s1 =>
          rw [histep] at hsim
          simp only [irun, runItems, histep]
          rw [← hsim]
          simp only [Except.map]
          exact ih s1

/-- Erasure commutes with finalization. -/
theorem ifinalize_erase (s : IState) :
    eraseDS (ifinalize s) = finalize (eraseState s) := by
  by_cases hr : s.current_row = [] <;>
    simp [ifinalize, finalize, eraseDS, eraseTable, eraseRow, eraseState, hr]

/-- A successful instrumented step advances the position counter by one. -/
theorem istep_pos (s : IState) (i : GridItem) (s' : IState)
    (h : istep s i = .ok s') : s'.pos = s.pos + 1 := by
  rcases i with ⟨role, text, ci⟩
  cases role <;> simp only [istep] at h
  all_goals repeat split at h
  all_goals try (injection h with h)
  all_goals try subst h
  all_goals repeat split at h
  all_goals try (injection h with h)
  all_goals try subst h
  all_goals try simp_all
  all_goals split_ifs <;> rfl

/-- After each instrumented step at most one pending buffer is non-empty,
mirroring `stepItem_mutEx`. -/
theorem istep_imutEx (s : IState) (i : GridItem) (s' : IState)
    (h : istep s i = .ok s') : IMutEx s' := by
  rcases i with ⟨role, text, ci⟩
  cases role <;> simp only [istep] at h
  all_goals repeat split at h
  all_goals try (injection h with h)
  all_goals try subst h
  all_goals repeat split at h
  all_goals try (injection h with h)
  all_goals try subst h
  all_goals simp only [IMutEx]
  all_goals try (split_ifs <;> simp_all)
  all_goals simp_all

/-- A successful instrumented step appends exactly the freshly tagged cell
to the cell content of the state (under mutual exclusion). -/
theorem istep_cellsEq (s : IState) (i : GridItem) (s' : IState)
    (hm : IMutEx s) (h : istep s i = .ok s') :
    cellsOf s' = cellsOf s ++ [⟨s.pos, i.text⟩] := by
  rcases hm with hm | hm
  all_goals rcases i with ⟨role, text, ci⟩
  all_goals cases role <;> simp only [istep] at h
  all_goals repeat split at h
  all_goals try (injection h with h)
  all_goals try subst h
  all_goals repeat split at h
  all_goals try (injection h with h)
  all_goals try subst h
  all_goals try simp_all [cellsOf]
  all_goals split_ifs <;> simp_all [cellsOf]

/-- Along the instrumented run, every tagged cell keeps pointing at the
input item it was read from. -/
theorem irun_tagOK : ∀ (suffix pre : List GridItem) (s s' : IState),
    s.pos = pre.length → IMutEx s → TagOK (pre ++ suffix) s →
    irun s suffix = .ok s' → TagOK (pre ++ suffix) s' := by
  intro suffix
  induction suffix with
  | nil =>
      intro pre s s' hpos hm htag h
      simp only [irun] at h
      injection h with h
      exact h ▸ htag
  | cons i rest ih =>
      intro pre s s' hpos hm htag h
      simp only [irun] at h
      split at h
      · simp_all
      · next s1 heq =>
          have hpos1 : s1.pos = (pre ++ [i]).length := by
            rw [istep_pos s i s1 heq, hpos]
            simp
          have htag1 : TagOK (pre ++ i :: rest) s1 := by
            intro c hc
            rw [istep_cellsEq s i s1 hm heq] at hc
            rcases List.mem_append.1 hc with hc | hc
            · exact htag c hc
            · rw [List.mem_singleton.1 hc]
              refine ⟨i, ?_, rfl⟩
              rw [hpos]
              rw [List.getElem?_append_right (Nat.le_refl _)]
              simp
          have hmain :=
            ih (pre ++ [i]) s1 s' hpos1 (istep_imutEx s i s1 heq)
              (by simpa [List.append_assoc] using htag1) h
          intro c hc
          obtain ⟨j, hj, htxt⟩ := hmain c (by simpa [List.append_assoc] using hc)
          refine ⟨j, ?_, htxt⟩
          simpa [List.append_assoc] using hj

/-- Every cell of the instrumented finalization output is a cell of the
final state. -/
theorem ifinalize_cells (s : IState) :
    ∀ t ∈ ifinalize s, ∀ r ∈ t, ∀ c ∈ r, c ∈ cellsOf s := by
  intro t ht r hr c hc
  have hin_ds : ∀ u ∈ s.datasets, ∀ v ∈ u, ∀ x ∈ v, x ∈ cellsOf s := by
    intro u hu v hv x hx
    unfold cellsOf
    refine List.mem_append.2 (Or.inl ?_)
    refine List.mem_append.2 (Or.inl ?_)
    refine List.mem_append.2 (Or.inl ?_)
    exact List.mem_flatten.2 ⟨v, List.mem_flatten.2 ⟨u, hu, hv⟩, hx⟩
  unfold ifinalize at ht
  by_cases hrow : s.current_row = []
  · rw [if_neg (by simp [hrow])] at ht
    exact hin_ds t ht r hr c hc
  · rw [if_pos hrow] at ht
    rcases List.mem_append.1 ht with ht | ht
    · exact hin_ds t ht r hr c hc
    · rw [List.mem_singleton.1 ht] at hr
      rcases List.mem_append.1 hr with hr | hr
      · unfold cellsOf
        refine List.mem_append.2 (Or.inl ?_)
        refine List.mem_append.2 (Or.inl ?_)
        refine List.mem_append.2 (Or.inr ?_)
        exact List.mem_flatten.2 ⟨r, hr, hc⟩
      · rw [List.mem_singleton.1 hr] at hc
        unfold cellsOf
        exact List.mem_append.2 (Or.inr hc)

/-- C7: the instrumented run refines the reconstruction pass (erasing
provenance tags gives exactly its output), and in it the head cell of any
output row that was started by a `rowheader` item carries that item's text:
a row beginning with a row header has the header's text as cell 0. -/
theorem row_header_first :
    ∀ (items : List GridItem) (res : List (List (List TCell))),
      iextract items = .ok res →
      extract_table_data items = .ok (eraseDS res) ∧
      ∀ t ∈ res, ∀ r ∈ t, ∀ c : TCell, r.head? = some c →
        ∀ (hk : c.src < items.length),
          (items.get ⟨c.src, hk⟩).role = Role.rowheader →
          c.txt = (items.get ⟨c.src, hk⟩).text := by
  intro items res h
  cases hirun : irun iInit items with
  | error e => simp [iextract, hirun] at h
  | ok s =>
      have hres : ifinalize s = res := by
        simp [iextract, hirun] at h
        exact h
      constructor
      · have hsim := irun_erase items iInit
        rw [hirun] at hsim
        simp only [Except.map] at hsim
        have : runItems initState items = .ok (eraseState s) := by
          have hinit : eraseState iInit = initState := rfl
          rw [← hinit]
          exact hsim.symm
        simp only [extract_table_data, this]
        rw [← hres, ifinalize_erase]
      · have htag : TagOK items s := by
          have h0 : TagOK ([] ++ items) iInit := by
            intro c hc
            simp [cellsOf, iInit] at hc
          have := irun_tagOK items [] iInit s rfl (Or.inl rfl) h0 hirun
          simpa using this
        intro t ht r hr c hchead hk hrole
        have hc : c ∈ r := List.mem_of_mem_head? (by simp [hchead])
        have hcell : c ∈ cellsOf s := by
          rw [← hres] at ht
          exact ifinalize_cells s t ht r hr c hc
        obtain ⟨j, hj, htxt⟩ := htag c hcell
        have : items[c.src]? = some (items.get ⟨c.src, hk⟩) := by
          simp [List.getElem?_eq_getElem hk]
        rw [this] at hj
        injection hj with hj
        rw [htxt, ← hj]

/-- Witness for `row_header_first` on a concrete two-item stream: a row
header "W" followed by one grid cell. -/
theorem row_header_first_witness :
    extract_table_data
      [⟨Role.rowheader, "W", none⟩, ⟨Role.gridcell, "3", some "1"⟩] =
      .ok (eraseDS [[[⟨0, "W"⟩, ⟨1, "3"⟩]]]) ∧
    TCell.txt ⟨0, "W"⟩ =
      (([⟨Role.rowheader, "W", none⟩,
         ⟨Role.gridcell, "3", some "1"⟩] : List GridItem).get
        ⟨0, by decide⟩).text := by
  have h := row_header_first
    [⟨Role.rowheader, "W", none⟩, ⟨Role.gridcell, "3", some "1"⟩]
    [[[⟨0, "W"⟩, ⟨1, "3"⟩]]] rfl
  refine ⟨h.1, ?_⟩
  exact h.2 [[⟨0, "W"⟩, ⟨1, "3"⟩]] (by simp) [⟨0, "W"⟩, ⟨1, "3"⟩] (by simp)
    ⟨0, "W"⟩ rfl (by decide) (by decide)
